import Mathlib

/-!
Shallow embedding of the model layer of the `pykeen/poem` repository
(`src/poem/models/unimodal/distmult.py`,
`src/poem/models/unimodal/structured_embedding.py`) and of the training
loop (`src/utilities/pipeline.py`).

Conventions of the embedding:
* tensor entries are rationals (`ℚ`); a rank-1 tensor is a `Vec := List ℚ`
  and a rank-2 tensor is a `Mat := List (List ℚ)`;
* an `nn.Embedding` table is a `Mat`, one row per id, looked up with
  `embLookup`;
* the external torch operation `functional.normalize(w, out=w)`
  (row-wise L2 normalization, whose values are irrational in general) is
  abstracted as an arbitrary function `nrm : Mat → Mat` passed to every
  definition that calls it; all theorems are proved for every such `nrm`;
* the external torch operation `torch.norm(v, p=scoring_fct_norm)` is
  abstracted likewise as `normF : Vec → ℚ`; the concrete default order
  `p = 1` is `normP1` below and is used by the witnesses;
* the random initial tables drawn by `embedding_xavier_uniform_` /
  `nn.init.uniform_` are passed in as explicit `fresh*` arguments
  (the RNG output), of the shape the corresponding `nn.Embedding` has.
-/

namespace PoemSpec

abbrev Vec := List ℚ
abbrev Mat := List (List ℚ)
abbrev Triple := ℕ × ℕ × ℕ

/-- Row lookup in an embedding table: `table(i)` in torch. -/
def embLookup (tbl : Mat) (i : ℕ) : Vec := tbl.getD i []

/-- Elementwise product `u * v` of two equal-length tensors (torch `*`). -/
def elemMul (u v : Vec) : Vec := List.zipWith (· * ·) u v

/-- Elementwise difference `u - v` (torch `-`). -/
def vecSub (u v : Vec) : Vec := List.zipWith (· - ·) u v

/-- Dot product of two vectors, as `torch.sum(u * v, dim=-1)`. -/
def dotList (u v : Vec) : ℚ := (elemMul u v).sum

/-- Matrix-vector product: `torch.matmul(M, v)` for `M : (d, d)`, `v : (d, 1)`,
read back as the result column. -/
def matVec (M : Mat) (v : Vec) : Vec := M.map (fun row => dotList row v)

/-- The `.view(-1, d, d)` reshape of a flat vector into rows of length `d`. -/
def chunkList (d : ℕ) : Vec → Mat
  | [] => []
  | x :: xs => ((x :: xs).take d) :: chunkList d ((x :: xs).drop (max d 1))
termination_by v => v.length
decreasing_by simp

/-- The torch shape of a rank-2 tensor (all rows of a well-formed tensor
have the same length, so the head row's length is the second component). -/
def shape2d (m : Mat) : List ℕ := m.length :: (m.head?.map List.length).toList

/-- The L1 norm `torch.norm(v, p=1)`: the default `scoring_fct_norm = 1`
instance of the abstracted norm `normF`. -/
def normP1 (v : Vec) : ℚ := (v.map (fun x => |x|)).sum

/-! ### Generic list lemmas used to read entries off the embedded tensors -/

theorem getD_map_of_lt {α β : Type} (f : α → β) (l : List α) (i : ℕ) (d : α)
    (d' : β) (h : i < l.length) : (l.map f).getD i d' = f (l.getD i d) := by
  induction l generalizing i with
  | nil => simp at h
  | cons a l ih =>
    cases i with
    | zero => simp [List.getD]
    | succ n =>
      simp only [List.length_cons, Nat.succ_lt_succ_iff] at h
      simpa [List.getD] using ih n h

theorem getD_zipWith_of_lt (f : ℚ → ℚ → ℚ) (u v : Vec) (k : ℕ) (d1 d2 d3 : ℚ)
    (hu : k < u.length) (hv : k < v.length) :
    (List.zipWith f u v).getD k d3 = f (u.getD k d1) (v.getD k d2) := by
  induction u generalizing v k with
  | nil => simp at hu
  | cons a u ih =>
    cases v with
    | nil => simp at hv
    | cons b v =>
      cases k with
      | zero => simp [List.getD]
      | succ n =>
        simp only [List.length_cons, Nat.succ_lt_succ_iff] at hu hv
        simpa [List.getD] using ih v n hu hv

theorem dotList_eq_sum (d : ℕ) (u v : Vec) (hu : u.length = d)
    (hv : v.length = d) :
    dotList u v = ∑ k ∈ Finset.range d, u.getD k 0 * v.getD k 0 := by
  induction d generalizing u v with
  | zero =>
    rw [List.length_eq_zero] at hu hv
    subst hu; subst hv; simp [dotList, elemMul]
  | succ n ih =>
    cases u with
    | nil => simp at hu
    | cons a u =>
      cases v with
      | nil => simp at hv
      | cons b v =>
        simp only [List.length_cons, Nat.succ_inj'] at hu hv
        rw [Finset.sum_range_succ']
        simp only [List.getD_cons_succ, List.getD_cons_zero]
        rw [← ih u v hu hv]
        simp [dotList, elemMul, add_comm]

/-! ### DistMult (`src/poem/models/unimodal/distmult.py`) -/

/-- The mutable state of a `DistMult` instance: the two (nullable)
embedding tables and the lazy forward-constraint flag, together with the
construction-time sizes. -/
structure DistMult where
  num_entities : ℕ
  num_relations : ℕ
  embedding_dim : ℕ
  entity_embeddings : Option Mat
  relation_embeddings : Option Mat
  forward_constraint_applied : Bool
deriving DecidableEq

namespace DistMult

/-- `DistMult.init_empty_weights_`: allocate and fill each table only when
it is `None`; a freshly allocated relation table is additionally
L2-normalized row-wise.  `freshE`/`freshR` stand for the Xavier-uniform
RNG draws of `embedding_xavier_uniform_`. -/
def init_empty_weights_ (nrm : Mat → Mat) (freshE freshR : Mat)
    (m : DistMult) : DistMult :=
  let m1 :=
    match m.entity_embeddings with
    | none => { m with entity_embeddings := some freshE }
    | some _ => m
  match m1.relation_embeddings with
  | none => { m1 with relation_embeddings := some (nrm freshR) }
  | some _ => m1

/-- `DistMult.clear_weights_`: both tables are set to `None`. -/
def clear_weights_ (m : DistMult) : DistMult :=
  { m with entity_embeddings := none, relation_embeddings := none }

/-- `DistMult._apply_forward_constraints_if_necessary`: when the flag is
unset, normalize the entity table in place and set the flag. -/
def apply_forward_constraints_if_necessary (nrm : Mat → Mat)
    (m : DistMult) : DistMult :=
  if m.forward_constraint_applied then m
  else { m with entity_embeddings := m.entity_embeddings.map nrm,
                forward_constraint_applied := true }

/-- `DistMult.interaction_function`: `torch.sum(h * r * t, dim=-1)`. -/
def interaction_function (h r t : Vec) : ℚ :=
  (elemMul (elemMul h r) t).sum

/-- `DistMult.forward_owa` on a batch of shape `(n, 3)`: look the three
columns up in the (constraint-applied) tables, score each row with the
interaction function, and reshape with `.view(-1, 1)` to an `(n, 1)`
tensor.  Returns the post-call instance state and the score tensor. -/
def forward_owa (nrm : Mat → Mat) (m : DistMult) (batch : List Triple) :
    DistMult × Mat :=
  let m' := apply_forward_constraints_if_necessary nrm m
  let E := m'.entity_embeddings.getD []
  let R := m'.relation_embeddings.getD []
  (m', batch.map (fun b =>
    [interaction_function (embLookup E b.1) (embLookup R b.2.1)
      (embLookup E b.2.2)]))

/-- `DistMult.forward_cwa` on a batch of shape `(n, 2)` of (head, relation)
ids: the `(n, 1, E) * (n, 1, E) * (1, N, E)` broadcast followed by
`sum(dim=-1)` produces the `(n, N)` tensor whose `(i, j)` entry scores
row `i` against entity `j` as tail. -/
def forward_cwa (nrm : Mat → Mat) (m : DistMult) (batch : List (ℕ × ℕ)) :
    DistMult × Mat :=
  let m' := apply_forward_constraints_if_necessary nrm m
  let E := m'.entity_embeddings.getD []
  let R := m'.relation_embeddings.getD []
  (m', batch.map (fun b =>
    E.map (fun w =>
      interaction_function (embLookup E b.1) (embLookup R b.2) w)))

/-- `DistMult.forward_inverse_cwa` on a batch of shape `(n, 2)` of
(relation, tail) ids: every entity is broadcast as head. -/
def forward_inverse_cwa (nrm : Mat → Mat) (m : DistMult)
    (batch : List (ℕ × ℕ)) : DistMult × Mat :=
  let m' := apply_forward_constraints_if_necessary nrm m
  let E := m'.entity_embeddings.getD []
  let R := m'.relation_embeddings.getD []
  (m', batch.map (fun b =>
    E.map (fun w =>
      interaction_function w (embLookup R b.1) (embLookup E b.2))))

/-- The entity table a forward call actually reads: the table after the
lazy constraint application. -/
def entityTableAfter (nrm : Mat → Mat) (m : DistMult) : Mat :=
  ((apply_forward_constraints_if_necessary nrm m).entity_embeddings).getD []

/-- The relation table a forward call actually reads. -/
def relationTableAfter (nrm : Mat → Mat) (m : DistMult) : Mat :=
  ((apply_forward_constraints_if_necessary nrm m).relation_embeddings).getD []

end DistMult

/-! ### Structured Embedding (`src/poem/models/unimodal/structured_embedding.py`) -/

/-- The mutable state of a `StructuredEmbedding` instance: the entity table,
the two flat relation projection-matrix tables (each row a flattened
`E × E` matrix of length `E ** 2`), the configured scoring norm order and
the lazy forward-constraint flag. -/
structure StructuredEmbedding where
  num_entities : ℕ
  num_relations : ℕ
  embedding_dim : ℕ
  scoring_fct_norm : ℕ
  entity_embeddings : Option Mat
  left_relation_embeddings : Option Mat
  right_relation_embeddings : Option Mat
  forward_constraint_applied : Bool
deriving DecidableEq

namespace StructuredEmbedding

/-- `StructuredEmbedding._init_embeddings`.  The first statement,
`super()._init_embeddings()`, is modelled from the spec (the `BaseModule`
source is not under `src/`): it allocates the entity table of shape
`(num_entities, E)` when it is unset; immediately afterwards this method
refills the entity values in place with `nn.init.uniform_`, so the final
entity table is the fresh uniform draw `freshE` in either case.  Both
relation tables are unconditionally reallocated, uniformly filled
(`freshL` / `freshR`) and row-wise L2-normalized. -/
def init_embeddings (nrm : Mat → Mat) (freshE freshL freshR : Mat)
    (m : StructuredEmbedding) : StructuredEmbedding :=
  { m with entity_embeddings := some freshE,
           left_relation_embeddings := some (nrm freshL),
           right_relation_embeddings := some (nrm freshR) }

/-- `StructuredEmbedding.__init__` after `super().__init__(...)` (the base
constructor, not under `src/`, is modelled from the spec: the entity table
starts unset since no entity table is passed up, and the
forward-constraint flag starts "not applied"): store the two optional
pre-supplied relation tables, and run `_init_embeddings` when at least one
of them is `None`. -/
def mk_init (nrm : Mat → Mat) (freshE freshL freshR : Mat)
    (num_entities num_relations embedding_dim scoring_fct_norm : ℕ)
    (left right : Option Mat) : StructuredEmbedding :=
  let m : StructuredEmbedding :=
    { num_entities := num_entities
      num_relations := num_relations
      embedding_dim := embedding_dim
      scoring_fct_norm := scoring_fct_norm
      entity_embeddings := none
      left_relation_embeddings := left
      right_relation_embeddings := right
      forward_constraint_applied := false }
  if left.isNone || right.isNone then
    init_embeddings nrm freshE freshL freshR m
  else m

/-- `StructuredEmbedding._apply_forward_constraints_if_necessary`: when the
flag is unset, normalize the entity table in place and set the flag. -/
def apply_forward_constraints_if_necessary (nrm : Mat → Mat)
    (m : StructuredEmbedding) : StructuredEmbedding :=
  if m.forward_constraint_applied then m
  else { m with entity_embeddings := m.entity_embeddings.map nrm,
                forward_constraint_applied := true }

/-- `StructuredEmbedding._project_entities`: `torch.matmul(relation, entity)`
with the entity as an `(E, 1)` column. -/
def project_entities (relation_embeddings : Mat) (entity_embeddings : Vec) :
    Vec :=
  matVec relation_embeddings entity_embeddings

/-- `StructuredEmbedding.forward_owa` on a batch of shape `(n, 3)`: per row,
the head and tail are viewed as `(E, 1)` columns, the flat relation rows
are viewed as `(E, E)` matrices, entities are projected, and the score row
is `-torch.norm(proj_h - proj_t, dim=1, p=scoring_fct_norm)`, giving an
`(n, 1)` tensor.  `normF` abstracts `torch.norm(·, p=scoring_fct_norm)`. -/
def forward_owa (nrm : Mat → Mat) (normF : Vec → ℚ)
    (m : StructuredEmbedding) (batch : List Triple) :
    StructuredEmbedding × Mat :=
  let m' := apply_forward_constraints_if_necessary nrm m
  let E := m'.entity_embeddings.getD []
  let L := m'.left_relation_embeddings.getD []
  let R := m'.right_relation_embeddings.getD []
  let d := m.embedding_dim
  (m', batch.map (fun b =>
    let h := embLookup E b.1
    let rel_h := chunkList d (embLookup L b.2.1)
    let rel_t := chunkList d (embLookup R b.2.1)
    let t := embLookup E b.2.2
    [-(normF (vecSub (project_entities rel_h h) (project_entities rel_t t)))]))

/-- `StructuredEmbedding.forward_cwa` on a batch of shape `(n, 2)` of
(head, relation) ids: the head projection `(n, E, 1)` is broadcast against
the projection `(n, N, E, 1)` of every entity as tail, producing the
`(n, N)` score tensor. -/
def forward_cwa (nrm : Mat → Mat) (normF : Vec → ℚ)
    (m : StructuredEmbedding) (batch : List (ℕ × ℕ)) :
    StructuredEmbedding × Mat :=
  let m' := apply_forward_constraints_if_necessary nrm m
  let E := m'.entity_embeddings.getD []
  let L := m'.left_relation_embeddings.getD []
  let R := m'.right_relation_embeddings.getD []
  let d := m.embedding_dim
  (m', batch.map (fun b =>
    let h := embLookup E b.1
    let rel_h := chunkList d (embLookup L b.2)
    let rel_t := chunkList d (embLookup R b.2)
    E.map (fun w =>
      -(normF (vecSub (project_entities rel_h h) (project_entities rel_t w))))))

/-- `StructuredEmbedding.forward_inverse_cwa` on a batch of shape `(n, 2)`
of (relation, tail) ids: every entity is broadcast as head. -/
def forward_inverse_cwa (nrm : Mat → Mat) (normF : Vec → ℚ)
    (m : StructuredEmbedding) (batch : List (ℕ × ℕ)) :
    StructuredEmbedding × Mat :=
  let m' := apply_forward_constraints_if_necessary nrm m
  let E := m'.entity_embeddings.getD []
  let L := m'.left_relation_embeddings.getD []
  let R := m'.right_relation_embeddings.getD []
  let d := m.embedding_dim
  (m', batch.map (fun b =>
    let rel_h := chunkList d (embLookup L b.1)
    let rel_t := chunkList d (embLookup R b.1)
    let t := embLookup E b.2
    E.map (fun w =>
      -(normF (vecSub (project_entities rel_h w) (project_entities rel_t t))))))

/-- The entity table a forward call actually reads: the table after the
lazy constraint application. -/
def entityTableAfter (nrm : Mat → Mat) (m : StructuredEmbedding) : Mat :=
  ((apply_forward_constraints_if_necessary nrm m).entity_embeddings).getD []

/-- The left projection-matrix table a forward call actually reads. -/
def leftTableAfter (nrm : Mat → Mat) (m : StructuredEmbedding) : Mat :=
  ((apply_forward_constraints_if_necessary nrm m).left_relation_embeddings).getD []

/-- The right projection-matrix table a forward call actually reads. -/
def rightTableAfter (nrm : Mat → Mat) (m : StructuredEmbedding) : Mat :=
  ((apply_forward_constraints_if_necessary nrm m).right_relation_embeddings).getD []

end StructuredEmbedding

/-! ### Training loop (`src/utilities/pipeline.py`, `Pipeline._train`) -/

namespace Pipeline

/-- The assignment `triples = triples[indices]` after
`indices = np.arange(n); np.random.shuffle(indices)`: the RNG output
`indices` is an explicit argument `σ`. -/
def shuffled (σ : List ℕ) (xs : List Triple) : List Triple :=
  σ.map (fun i => xs.getD i (0, 0, 0))

/-- The `(pos_triples[step], neg_triples[step])` pairs visited by the inner
`for step in range(num_instances)` loop of one epoch, after the one-time
shuffle.  `num_instances = pos_triples.shape[0]` is the length of the
shuffled array. -/
def epochInstances (σ : List ℕ) (pos neg : List Triple) :
    List (Triple × Triple) :=
  let pos' := shuffled σ pos
  let neg' := shuffled σ neg
  (List.range pos'.length).map
    (fun step => (pos'.getD step (0, 0, 0), neg'.getD step (0, 0, 0)))

/-- The full visiting order of `Pipeline._train`: the outer
`for epoch in range(num_epochs)` loop replays the same instance list; the
shuffle happens once, before the first epoch. -/
def schedule (σ : List ℕ) (pos neg : List Triple) (num_epochs : ℕ) :
    List (List (Triple × Triple)) :=
  (List.range num_epochs).map (fun _ => epochInstances σ pos neg)

/-- Modelled from the spec: `BaseModule.forward` (the base class is not
under `src/`) — `self.kg_embedding_model(pos_triple, neg_triple)` scores
the positive and the negative triple with the model's OWA forward pass
(which applies the lazy entity-norm constraint, per §4.1) and compares
them with the margin ranking loss (margin 1, per §4.1), here for the
repository's `DistMult` model. -/
def modelLoss (nrm : Mat → Mat) (m : DistMult) (pos neg : Triple) :
    DistMult × ℚ :=
  let r1 := DistMult.forward_owa nrm m [pos]
  let r2 := DistMult.forward_owa nrm r1.1 [neg]
  (r2.1, max 0 (1 - (r1.2.getD 0 []).getD 0 0 + (r2.2.getD 0 []).getD 0 0))

/-- `optimizer.step()` of `optim.SGD`: updates only the tensor parameters
(the gradient-descent update is abstracted as `updE` / `updR`, applied to
the entity and relation tables); the Python attribute
`forward_constraint_applied` is not a parameter and is untouched. -/
def optimizerStep (updE updR : Mat → Mat) (m : DistMult) : DistMult :=
  { m with entity_embeddings := m.entity_embeddings.map updE,
           relation_embeddings := m.relation_embeddings.map updR }

/-- One step of the inner loop of `Pipeline._train`:
`optimizer.zero_grad(); loss = model(pos, neg); loss.backward();
optimizer.step()` (gradient bookkeeping has no effect on the embedded
state).  Returns the model state after the optimizer step and the scalar
loss accumulated into `total_loss`. -/
def trainStep (nrm updE updR : Mat → Mat) (m : DistMult)
    (inst : Triple × Triple) : DistMult × ℚ :=
  let r := modelLoss nrm m inst.1 inst.2
  (optimizerStep updE updR r.1, r.2)

/-- The list of model states observed after each optimizer step, running
the steps of `insts` in order from `m0`. -/
def trainTrace (nrm updE updR : Mat → Mat) (m0 : DistMult) :
    List (Triple × Triple) → List DistMult
  | [] => []
  | inst :: rest =>
    let m1 := (trainStep nrm updE updR m0 inst).1
    m1 :: trainTrace nrm updE updR m1 rest

/-- The post-step states of a whole `_train` run: every epoch of the
schedule, in order. -/
def runStates (nrm updE updR : Mat → Mat) (m0 : DistMult) (σ : List ℕ)
    (pos neg : List Triple) (num_epochs : ℕ) : List DistMult :=
  trainTrace nrm updE updR m0 (schedule σ pos neg num_epochs).flatten

end Pipeline

/-! ### Reference formulations and concrete sample instances -/

/-- The sum over the embedding dimension of the elementwise triple product,
written entrywise — the spec's formulation "elementwise product `h ⊙ r ⊙ t`
summed over the embedding dimension" for vectors of dimension `d`. -/
def dotIdx (d : ℕ) (h r t : Vec) : ℚ :=
  ∑ k ∈ Finset.range d, h.getD k 0 * r.getD k 0 * t.getD k 0

/-- A small populated `DistMult` instance (2 entities, 1 relation,
dimension 1) whose forward constraint has already been applied. -/
def mDM : DistMult :=
  ⟨2, 1, 1, some [[1], [2]], some [[3]], true⟩

/-- A small populated `DistMult` instance whose forward constraint has not
been applied yet. -/
def mDM0 : DistMult :=
  ⟨2, 1, 1, some [[1], [2]], some [[3]], false⟩

/-- A small populated `StructuredEmbedding` instance (2 entities,
1 relation, dimension 1, norm order 1) with the constraint applied. -/
def sSE : StructuredEmbedding :=
  ⟨2, 1, 1, 1, some [[1], [2]], some [[3]], some [[4]], true⟩

end PoemSpec

namespace PoemSpec

/-- The elementwise triple product is symmetric in its first and third
arguments (pointwise commutativity of multiplication; `List.zipWith`
truncation is symmetric as well). -/
theorem elemMul_triple_comm (h r t : Vec) :
    elemMul (elemMul h r) t = elemMul (elemMul t r) h := by
  induction h generalizing r t with
  | nil =>
    cases r with
    | nil => cases t <;> simp [elemMul]
    | cons b r => cases t <;> simp [elemMul]
  | cons a h ih =>
    cases r with
    | nil => cases t <;> simp [elemMul]
    | cons b r =>
      cases t with
      | nil => simp [elemMul]
      | cons c t =>
        simp only [elemMul, List.zipWith_cons_cons] at *
        simp only [List.cons.injEq]
        exact ⟨by ring, ih r t⟩

/-- C5: For all head, relation and tail embedding vectors `h`, `r`, `t` of
the same dimension, the DistMult interaction function is symmetric in head
and tail: `interaction_function h r t = interaction_function t r h`. -/
theorem distmult_interaction_symmetric (d : ℕ) (h r t : Vec)
    (hh : h.length = d) (hr : r.length = d) (ht : t.length = d) :
    DistMult.interaction_function h r t = DistMult.interaction_function t r h := by
  unfold DistMult.interaction_function
  rw [elemMul_triple_comm]

/-- Witness for C5 at a concrete dimension-2 input. -/
theorem distmult_interaction_symmetric_witness :
    DistMult.interaction_function [1, 2] [3, 4] [5, 6]
      = DistMult.interaction_function [5, 6] [3, 4] [1, 2] :=
  distmult_interaction_symmetric 2 [1, 2] [3, 4] [5, 6]
    (by decide) (by decide) (by decide)

/-! ### Further list lemmas -/

theorem getD_take_of_lt (l : Vec) (d j : ℕ) (h : j < d) :
    (l.take d).getD j 0 = l.getD j 0 := by
  induction l generalizing d j with
  | nil => simp
  | cons a l ih =>
    cases d with
    | zero => omega
    | succ n =>
      cases j with
      | zero => simp [List.getD]
      | succ i => simpa [List.getD] using ih n i (by omega)

theorem getD_drop_add (l : Vec) (mm j : ℕ) :
    (l.drop mm).getD j 0 = l.getD (mm + j) 0 := by
  induction mm generalizing l with
  | zero => simp
  | succ n ih =>
    cases l with
    | nil => simp
    | cons a l =>
      rw [Nat.succ_add]
      simp only [List.drop_succ_cons, List.getD_cons_succ]
      exact ih l

theorem getD_take_drop (v : Vec) (mm d j : ℕ) (h : j < d) :
    ((v.drop mm).take d).getD j 0 = v.getD (mm + j) 0 := by
  rw [getD_take_of_lt _ _ _ h, getD_drop_add]

theorem chunkList_length_mul (d : ℕ) (hd : 0 < d) :
    ∀ (n : ℕ) (v : Vec), v.length = n * d → (chunkList d v).length = n := by
  intro n
  induction n with
  | zero =>
    intro v hv
    simp only [Nat.zero_mul, List.length_eq_zero] at hv
    subst hv
    simp [chunkList]
  | succ k ih =>
    intro v hv
    cases v with
    | nil => simp at hv; omega
    | cons x xs =>
      rw [chunkList]
      have hmax : max d 1 = d := by omega
      have hlen : ((x :: xs).drop (max d 1)).length = k * d := by
        rw [hmax, List.length_drop, hv]
        have h1 : (k + 1) * d = k * d + d := by ring
        omega
      simp [ih _ hlen]

theorem chunkList_getD (d : ℕ) (hd : 0 < d) :
    ∀ (k : ℕ) (v : Vec), k * d < v.length →
      (chunkList d v).getD k [] = (v.drop (k * d)).take d := by
  intro k
  induction k with
  | zero =>
    intro v hv
    cases v with
    | nil => simp at hv
    | cons x xs => rw [chunkList]; simp [List.getD]
  | succ j ih =>
    intro v hv
    cases v with
    | nil => simp at hv
    | cons x xs =>
      rw [chunkList]
      have hmax : max d 1 = d := by omega
      have hbound : j * d < ((x :: xs).drop (max d 1)).length := by
        rw [hmax, List.length_drop]
        have : (j + 1) * d = j * d + d := by ring
        omega
      have hrec := ih ((x :: xs).drop (max d 1)) hbound
      simp only [List.getD_cons_succ]
      rw [hrec, hmax, List.drop_drop]
      congr 1
      ring

theorem dotIdx_of_interaction (d : ℕ) (h r t : Vec) (hh : h.length = d)
    (hr : r.length = d) (ht : t.length = d) :
    DistMult.interaction_function h r t = dotIdx d h r t := by
  induction d generalizing h r t with
  | zero =>
    rw [List.length_eq_zero] at hh hr ht
    subst hh; subst hr; subst ht
    simp [DistMult.interaction_function, dotIdx, elemMul]
  | succ n ih =>
    cases h with
    | nil => simp at hh
    | cons a h =>
      cases r with
      | nil => simp at hr
      | cons b r =>
        cases t with
        | nil => simp at ht
        | cons c t =>
          simp only [List.length_cons, Nat.succ_inj'] at hh hr ht
          unfold dotIdx
          rw [Finset.sum_range_succ']
          simp only [List.getD_cons_succ, List.getD_cons_zero]
          rw [← dotIdx, ← ih h r t hh hr ht]
          simp [DistMult.interaction_function, elemMul, add_comm]

/-! ### Lemmas on the lazy forward-constraint application -/

theorem distmult_apply_flag (nrm : Mat → Mat) (m : DistMult) :
    (DistMult.apply_forward_constraints_if_necessary nrm m).forward_constraint_applied
      = true := by
  unfold DistMult.apply_forward_constraints_if_necessary
  cases h : m.forward_constraint_applied <;> simp [h]

theorem distmult_apply_apply (nrm : Mat → Mat) (m : DistMult) :
    DistMult.apply_forward_constraints_if_necessary nrm
        (DistMult.apply_forward_constraints_if_necessary nrm m)
      = DistMult.apply_forward_constraints_if_necessary nrm m := by
  unfold DistMult.apply_forward_constraints_if_necessary
  cases hm : m.forward_constraint_applied <;> simp [hm]

theorem se_apply_flag (nrm : Mat → Mat) (m : StructuredEmbedding) :
    (StructuredEmbedding.apply_forward_constraints_if_necessary nrm
      m).forward_constraint_applied = true := by
  unfold StructuredEmbedding.apply_forward_constraints_if_necessary
  cases h : m.forward_constraint_applied <;> simp [h]

theorem se_apply_apply (nrm : Mat → Mat) (m : StructuredEmbedding) :
    StructuredEmbedding.apply_forward_constraints_if_necessary nrm
        (StructuredEmbedding.apply_forward_constraints_if_necessary nrm m)
      = StructuredEmbedding.apply_forward_constraints_if_necessary nrm m := by
  unfold StructuredEmbedding.apply_forward_constraints_if_necessary
  cases hm : m.forward_constraint_applied <;> simp [hm]

theorem distmult_apply_relation (nrm : Mat → Mat) (m : DistMult) :
    (DistMult.apply_forward_constraints_if_necessary nrm m).relation_embeddings
      = m.relation_embeddings := by
  unfold DistMult.apply_forward_constraints_if_necessary
  cases hm : m.forward_constraint_applied <;> simp [hm]

theorem distmult_apply_entity (nrm : Mat → Mat) (m : DistMult) :
    (DistMult.apply_forward_constraints_if_necessary nrm m).entity_embeddings
      = (if m.forward_constraint_applied then m.entity_embeddings
         else m.entity_embeddings.map nrm) := by
  unfold DistMult.apply_forward_constraints_if_necessary
  cases hm : m.forward_constraint_applied <;> simp [hm]

theorem se_apply_left (nrm : Mat → Mat) (m : StructuredEmbedding) :
    (StructuredEmbedding.apply_forward_constraints_if_necessary nrm
      m).left_relation_embeddings = m.left_relation_embeddings := by
  unfold StructuredEmbedding.apply_forward_constraints_if_necessary
  cases hm : m.forward_constraint_applied <;> simp [hm]

theorem se_apply_right (nrm : Mat → Mat) (m : StructuredEmbedding) :
    (StructuredEmbedding.apply_forward_constraints_if_necessary nrm
      m).right_relation_embeddings = m.right_relation_embeddings := by
  unfold StructuredEmbedding.apply_forward_constraints_if_necessary
  cases hm : m.forward_constraint_applied <;> simp [hm]

theorem se_apply_entity (nrm : Mat → Mat) (m : StructuredEmbedding) :
    (StructuredEmbedding.apply_forward_constraints_if_necessary nrm
      m).entity_embeddings
      = (if m.forward_constraint_applied then m.entity_embeddings
         else m.entity_embeddings.map nrm) := by
  unfold StructuredEmbedding.apply_forward_constraints_if_necessary
  cases hm : m.forward_constraint_applied <;> simp [hm]

theorem distmult_forward_owa_fst (nrm : Mat → Mat) (m : DistMult)
    (b : List Triple) :
    (DistMult.forward_owa nrm m b).1
      = DistMult.apply_forward_constraints_if_necessary nrm m := rfl

theorem distmult_forward_cwa_fst (nrm : Mat → Mat) (m : DistMult)
    (b : List (ℕ × ℕ)) :
    (DistMult.forward_cwa nrm m b).1
      = DistMult.apply_forward_constraints_if_necessary nrm m := rfl

theorem distmult_forward_inverse_cwa_fst (nrm : Mat → Mat) (m : DistMult)
    (b : List (ℕ × ℕ)) :
    (DistMult.forward_inverse_cwa nrm m b).1
      = DistMult.apply_forward_constraints_if_necessary nrm m := rfl

theorem se_forward_owa_fst (nrm : Mat → Mat) (normF : Vec → ℚ)
    (m : StructuredEmbedding) (b : List Triple) :
    (StructuredEmbedding.forward_owa nrm normF m b).1
      = StructuredEmbedding.apply_forward_constraints_if_necessary nrm m := rfl

theorem se_forward_cwa_fst (nrm : Mat → Mat) (normF : Vec → ℚ)
    (m : StructuredEmbedding) (b : List (ℕ × ℕ)) :
    (StructuredEmbedding.forward_cwa nrm normF m b).1
      = StructuredEmbedding.apply_forward_constraints_if_necessary nrm m := rfl

theorem se_forward_inverse_cwa_fst (nrm : Mat → Mat) (normF : Vec → ℚ)
    (m : StructuredEmbedding) (b : List (ℕ × ℕ)) :
    (StructuredEmbedding.forward_inverse_cwa nrm normF m b).1
      = StructuredEmbedding.apply_forward_constraints_if_necessary nrm m := rfl

/-- C8: Once the forward-constraint flag has been set by a forward call,
a second consecutive forward call (any of the three modes, on either
model, with no intervening update, clear or re-initialization) leaves the
entity embedding table bit-identical: for every mode pair, the entity
table after the second call equals the entity table after the first. -/
theorem second_forward_leaves_entities_identical :
    ∀ (nrm : Mat → Mat) (normF : Vec → ℚ) (m : DistMult)
      (s : StructuredEmbedding) (bo bo' : List Triple)
      (bc bc' : List (ℕ × ℕ)) (so so' : List Triple)
      (sc sc' : List (ℕ × ℕ)),
      ((DistMult.forward_owa nrm (DistMult.forward_owa nrm m bo).1 bo').1).entity_embeddings
          = ((DistMult.forward_owa nrm m bo).1).entity_embeddings
      ∧ ((DistMult.forward_cwa nrm (DistMult.forward_owa nrm m bo).1 bc').1).entity_embeddings
          = ((DistMult.forward_owa nrm m bo).1).entity_embeddings
      ∧ ((DistMult.forward_inverse_cwa nrm (DistMult.forward_owa nrm m bo).1 bc').1).entity_embeddings
          = ((DistMult.forward_owa nrm m bo).1).entity_embeddings
      ∧ ((DistMult.forward_owa nrm (DistMult.forward_cwa nrm m bc).1 bo').1).entity_embeddings
          = ((DistMult.forward_cwa nrm m bc).1).entity_embeddings
      ∧ ((DistMult.forward_cwa nrm (DistMult.forward_cwa nrm m bc).1 bc').1).entity_embeddings
          = ((DistMult.forward_cwa nrm m bc).1).entity_embeddings
      ∧ ((DistMult.forward_inverse_cwa nrm (DistMult.forward_cwa nrm m bc).1 bc').1).entity_embeddings
          = ((DistMult.forward_cwa nrm m bc).1).entity_embeddings
      ∧ ((DistMult.forward_owa nrm (DistMult.forward_inverse_cwa nrm m bc).1 bo').1).entity_embeddings
          = ((DistMult.forward_inverse_cwa nrm m bc).1).entity_embeddings
      ∧ ((DistMult.forward_cwa nrm (DistMult.forward_inverse_cwa nrm m bc).1 bc').1).entity_embeddings
          = ((DistMult.forward_inverse_cwa nrm m bc).1).entity_embeddings
      ∧ ((DistMult.forward_inverse_cwa nrm (DistMult.forward_inverse_cwa nrm m bc).1 bc').1).entity_embeddings
          = ((DistMult.forward_inverse_cwa nrm m bc).1).entity_embeddings
      ∧ ((StructuredEmbedding.forward_owa nrm normF (StructuredEmbedding.forward_owa nrm normF s so).1 so').1).entity_embeddings
          = ((StructuredEmbedding.forward_owa nrm normF s so).1).entity_embeddings
      ∧ ((StructuredEmbedding.forward_cwa nrm normF (StructuredEmbedding.forward_owa nrm normF s so).1 sc').1).entity_embeddings
          = ((StructuredEmbedding.forward_owa nrm normF s so).1).entity_embeddings
      ∧ ((StructuredEmbedding.forward_inverse_cwa nrm normF (StructuredEmbedding.forward_owa nrm normF s so).1 sc').1).entity_embeddings
          = ((StructuredEmbedding.forward_owa nrm normF s so).1).entity_embeddings
      ∧ ((StructuredEmbedding.forward_owa nrm normF (StructuredEmbedding.forward_cwa nrm normF s sc).1 so').1).entity_embeddings
          = ((StructuredEmbedding.forward_cwa nrm normF s sc).1).entity_embeddings
      ∧ ((StructuredEmbedding.forward_cwa nrm normF (StructuredEmbedding.forward_cwa nrm normF s sc).1 sc').1).entity_embeddings
          = ((StructuredEmbedding.forward_cwa nrm normF s sc).1).entity_embeddings
      ∧ ((StructuredEmbedding.forward_inverse_cwa nrm normF (StructuredEmbedding.forward_cwa nrm normF s sc).1 sc').1).entity_embeddings
          = ((StructuredEmbedding.forward_cwa nrm normF s sc).1).entity_embeddings
      ∧ ((StructuredEmbedding.forward_owa nrm normF (StructuredEmbedding.forward_inverse_cwa nrm normF s sc).1 so').1).entity_embeddings
          = ((StructuredEmbedding.forward_inverse_cwa nrm normF s sc).1).entity_embeddings
      ∧ ((StructuredEmbedding.forward_cwa nrm normF (StructuredEmbedding.forward_inverse_cwa nrm normF s sc).1 sc').1).entity_embeddings
          = ((StructuredEmbedding.forward_inverse_cwa nrm normF s sc).1).entity_embeddings
      ∧ ((StructuredEmbedding.forward_inverse_cwa nrm normF (StructuredEmbedding.forward_inverse_cwa nrm normF s sc).1 sc').1).entity_embeddings
          = ((StructuredEmbedding.forward_inverse_cwa nrm normF s sc).1).entity_embeddings := by
  intro nrm normF m s bo bo' bc bc' so so' sc sc'
  simp only [distmult_forward_owa_fst, distmult_forward_cwa_fst,
    distmult_forward_inverse_cwa_fst, se_forward_owa_fst, se_forward_cwa_fst,
    se_forward_inverse_cwa_fst, distmult_apply_apply, se_apply_apply]
  simp

/-- C10: No forward pass modifies the relation parameters: every mode of
either model leaves the relation table (DistMult) and both projection
tables (Structured Embedding) unchanged, and the entity table is mutated
only when the forward-constraint flag was unset — in which case it becomes
its normalized image — and is untouched otherwise. -/
theorem forward_frame_effects :
    ∀ (nrm : Mat → Mat) (normF : Vec → ℚ) (m : DistMult)
      (s : StructuredEmbedding) (bo : List Triple) (bc bi : List (ℕ × ℕ))
      (so : List Triple) (sc si : List (ℕ × ℕ)),
      ((DistMult.forward_owa nrm m bo).1).relation_embeddings = m.relation_embeddings
      ∧ ((DistMult.forward_cwa nrm m bc).1).relation_embeddings = m.relation_embeddings
      ∧ ((DistMult.forward_inverse_cwa nrm m bi).1).relation_embeddings = m.relation_embeddings
      ∧ ((DistMult.forward_owa nrm m bo).1).entity_embeddings
          = (if m.forward_constraint_applied then m.entity_embeddings
             else m.entity_embeddings.map nrm)
      ∧ ((DistMult.forward_cwa nrm m bc).1).entity_embeddings
          = (if m.forward_constraint_applied then m.entity_embeddings
             else m.entity_embeddings.map nrm)
      ∧ ((DistMult.forward_inverse_cwa nrm m bi).1).entity_embeddings
          = (if m.forward_constraint_applied then m.entity_embeddings
             else m.entity_embeddings.map nrm)
      ∧ ((StructuredEmbedding.forward_owa nrm normF s so).1).left_relation_embeddings
          = s.left_relation_embeddings
      ∧ ((StructuredEmbedding.forward_owa nrm normF s so).1).right_relation_embeddings
          = s.right_relation_embeddings
      ∧ ((StructuredEmbedding.forward_cwa nrm normF s sc).1).left_relation_embeddings
          = s.left_relation_embeddings
      ∧ ((StructuredEmbedding.forward_cwa nrm normF s sc).1).right_relation_embeddings
          = s.right_relation_embeddings
      ∧ ((StructuredEmbedding.forward_inverse_cwa nrm normF s si).1).left_relation_embeddings
          = s.left_relation_embeddings
      ∧ ((StructuredEmbedding.forward_inverse_cwa nrm normF s si).1).right_relation_embeddings
          = s.right_relation_embeddings
      ∧ ((StructuredEmbedding.forward_owa nrm normF s so).1).entity_embeddings
          = (if s.forward_constraint_applied then s.entity_embeddings
             else s.entity_embeddings.map nrm)
      ∧ ((StructuredEmbedding.forward_cwa nrm normF s sc).1).entity_embeddings
          = (if s.forward_constraint_applied then s.entity_embeddings
             else s.entity_embeddings.map nrm)
      ∧ ((StructuredEmbedding.forward_inverse_cwa nrm normF s si).1).entity_embeddings
          = (if s.forward_constraint_applied then s.entity_embeddings
             else s.entity_embeddings.map nrm) := by
  intro nrm normF m s bo bc bi so sc si
  simp only [distmult_forward_owa_fst, distmult_forward_cwa_fst,
    distmult_forward_inverse_cwa_fst, se_forward_owa_fst, se_forward_cwa_fst,
    se_forward_inverse_cwa_fst, distmult_apply_relation, distmult_apply_entity,
    se_apply_left, se_apply_right, se_apply_entity]
  simp

/-- C2 (amended): `DistMult.init_empty_weights_` skips each already
populated table individually, so a pre-supplied entity or relation table
is never overwritten there; `StructuredEmbedding` skips initialization
only when BOTH relation tables are supplied together — when exactly one is
supplied, `_init_embeddings` runs and reallocates both, overwriting the
supplied one with a fresh normalized table. -/
theorem init_skips_populated_tables :
    ∀ (nrm : Mat → Mat) (freshE freshR fE fL fR : Mat) (L R E2 : Mat)
      (m : DistMult) (ne nr d p : ℕ),
      (m.entity_embeddings = some E2 →
        (DistMult.init_empty_weights_ nrm freshE freshR m).entity_embeddings
          = some E2)
      ∧ (m.relation_embeddings = some R →
        (DistMult.init_empty_weights_ nrm freshE freshR m).relation_embeddings
          = some R)
      ∧ (StructuredEmbedding.mk_init nrm fE fL fR ne nr d p (some L)
          (some R)).left_relation_embeddings = some L
      ∧ (StructuredEmbedding.mk_init nrm fE fL fR ne nr d p (some L)
          (some R)).right_relation_embeddings = some R
      ∧ (StructuredEmbedding.mk_init nrm fE fL fR ne nr d p (some L)
          none).left_relation_embeddings = some (nrm fL)
      ∧ (StructuredEmbedding.mk_init nrm fE fL fR ne nr d p none
          (some R)).right_relation_embeddings = some (nrm fR) := by
  intro nrm freshE freshR fE fL fR L R E2 m ne nr d p
  refine ⟨?_, ?_, ?_, ?_, ?_, ?_⟩
  · intro h
    unfold DistMult.init_empty_weights_
    cases hr : m.relation_embeddings <;> simp [h, hr]
  · intro h
    unfold DistMult.init_empty_weights_
    cases he : m.entity_embeddings <;> simp [he, h]
  · simp [StructuredEmbedding.mk_init]
  · simp [StructuredEmbedding.mk_init]
  · simp [StructuredEmbedding.mk_init, StructuredEmbedding.init_embeddings]
  · simp [StructuredEmbedding.mk_init, StructuredEmbedding.init_embeddings]

/-- Counterexample to C2 as stated: constructing a `StructuredEmbedding`
with a pre-supplied left relation table but no right one runs
`_init_embeddings`, which overwrites the supplied left table. -/
theorem init_overwrites_presupplied_table_cex :
    (StructuredEmbedding.mk_init id [[1]] [[7]] [[9]] 1 1 1 1
        (some [[5]]) none).left_relation_embeddings ≠ some [[(5 : ℚ)]] := by
  decide

/-- Witness for C2 (amended) on a concrete populated `DistMult`. -/
theorem init_skips_populated_tables_witness :
    (DistMult.init_empty_weights_ id [[9], [9]] [[9]] mDM).entity_embeddings
        = some [[1], [2]]
    ∧ (DistMult.init_empty_weights_ id [[9], [9]] [[9]] mDM).relation_embeddings
        = some [[3]] := by
  have h := init_skips_populated_tables id [[9], [9]] [[9]] [[1]] [[1]] [[1]]
    [[1]] [[3]] [[1], [2]] mDM 1 1 1 1
  exact ⟨h.1 (by decide), h.2.1 (by decide)⟩

/-- C3 (amended): after `clear_weights_`, `init_empty_weights_`
repopulates both tables with the correct shapes (the fresh entity table,
and the normalized fresh relation table), but the forward-constraint flag
is NOT reset: it keeps its previous value, so after an earlier forward
pass the next forward pass does not re-normalize the fresh entity
embeddings. -/
theorem clear_then_init_repopulates :
    ∀ (nrm : Mat → Mat) (freshE freshR : Mat) (m : DistMult),
      (∀ t : Mat, shape2d (nrm t) = shape2d t) →
      shape2d freshE = [m.num_entities, m.embedding_dim] →
      shape2d freshR = [m.num_relations, m.embedding_dim] →
      ((DistMult.init_empty_weights_ nrm freshE freshR
            (DistMult.clear_weights_ m)).entity_embeddings = some freshE
      ∧ (DistMult.init_empty_weights_ nrm freshE freshR
            (DistMult.clear_weights_ m)).relation_embeddings = some (nrm freshR)
      ∧ shape2d ((DistMult.init_empty_weights_ nrm freshE freshR
            (DistMult.clear_weights_ m)).entity_embeddings.getD [])
          = [m.num_entities, m.embedding_dim]
      ∧ shape2d ((DistMult.init_empty_weights_ nrm freshE freshR
            (DistMult.clear_weights_ m)).relation_embeddings.getD [])
          = [m.num_relations, m.embedding_dim]
      ∧ (DistMult.init_empty_weights_ nrm freshE freshR
            (DistMult.clear_weights_ m)).forward_constraint_applied
          = m.forward_constraint_applied) := by
  intro nrm freshE freshR m hnrm hfe hfr
  refine ⟨?_, ?_, ?_, ?_, ?_⟩ <;>
    simp [DistMult.init_empty_weights_, DistMult.clear_weights_, hnrm, hfe, hfr]

/-- Counterexample to C3 as stated: on a model whose forward pass has run
(the flag is set), `clear_weights_` followed by `init_empty_weights_`
leaves the forward-constraint flag set, not reset to "not applied". -/
theorem clear_then_init_flag_not_reset_cex :
    ¬ ((DistMult.init_empty_weights_ id [[9], [9]] [[9]]
        (DistMult.clear_weights_
          ((DistMult.forward_owa id mDM0 [(0, 0, 1)]).1))).forward_constraint_applied
      = false) := by
  decide

/-- Witness for C3 (amended) on a concrete cleared-and-reinitialized
model. -/
theorem clear_then_init_repopulates_witness :
    (DistMult.init_empty_weights_ id [[9], [9]] [[9]]
          (DistMult.clear_weights_ mDM)).entity_embeddings = some [[9], [9]]
    ∧ (DistMult.init_empty_weights_ id [[9], [9]] [[9]]
          (DistMult.clear_weights_ mDM)).relation_embeddings = some (id [[9]])
    ∧ shape2d ((DistMult.init_empty_weights_ id [[9], [9]] [[9]]
          (DistMult.clear_weights_ mDM)).entity_embeddings.getD [])
        = [mDM.num_entities, mDM.embedding_dim]
    ∧ shape2d ((DistMult.init_empty_weights_ id [[9], [9]] [[9]]
          (DistMult.clear_weights_ mDM)).relation_embeddings.getD [])
        = [mDM.num_relations, mDM.embedding_dim]
    ∧ (DistMult.init_empty_weights_ id [[9], [9]] [[9]]
          (DistMult.clear_weights_ mDM)).forward_constraint_applied
        = mDM.forward_constraint_applied :=
  clear_then_init_repopulates id [[9], [9]] [[9]] mDM (fun _ => rfl)
    (by decide) (by decide)

theorem trainStep_flag_set (nrm updE updR : Mat → Mat) (m : DistMult)
    (inst : Triple × Triple) :
    (Pipeline.trainStep nrm updE updR m inst).1.forward_constraint_applied
      = true := by
  simp [Pipeline.trainStep, Pipeline.modelLoss, Pipeline.optimizerStep,
    distmult_forward_owa_fst, distmult_apply_flag]

theorem trainTrace_flag_set (nrm updE updR : Mat → Mat) :
    ∀ (insts : List (Triple × Triple)) (m0 st : DistMult),
      st ∈ Pipeline.trainTrace nrm updE updR m0 insts →
      st.forward_constraint_applied = true := by
  intro insts
  induction insts with
  | nil => intro m0 st h; simp [Pipeline.trainTrace] at h
  | cons i rest ih =>
    intro m0 st h
    simp only [Pipeline.trainTrace, List.mem_cons] at h
    rcases h with h | h
    · rw [h]; exact trainStep_flag_set nrm updE updR m0 i
    · exact ih _ st h

/-- C4 (amended): the training loop never disarms the forward-constraint
flag: after every optimizer step of every epoch the flag is set (true),
so the entity embeddings are normalized at most once per initialization
rather than before the forward computation of each training step. -/
theorem training_loop_never_disarms_flag :
    ∀ (nrm updE updR : Mat → Mat) (m0 : DistMult) (σ : List ℕ)
      (pos neg : List Triple) (num_epochs : ℕ) (st : DistMult),
      st ∈ Pipeline.runStates nrm updE updR m0 σ pos neg num_epochs →
      st.forward_constraint_applied = true := by
  intro nrm updE updR m0 σ pos neg num_epochs st h
  exact trainTrace_flag_set nrm updE updR _ m0 st h

/-- Counterexample to C4 as stated: after a concrete optimizer step the
flag is not set back to "not applied" — it is set. -/
theorem optimizer_step_does_not_disarm_cex :
    ¬ ((Pipeline.trainStep id id id mDM0
        ((0, 0, 1), (0, 0, 0))).1.forward_constraint_applied = false) := by
  decide

/-- Witness for C4 (amended) on a concrete one-epoch, one-instance run. -/
theorem training_loop_never_disarms_flag_witness :
    ((Pipeline.runStates id id id mDM0 [0] [(0, 0, 1)] [(0, 0, 0)]
        1).getD 0 mDM).forward_constraint_applied = true :=
  training_loop_never_disarms_flag id id id mDM0 [0] [(0, 0, 1)]
    [(0, 0, 0)] 1
    ((Pipeline.runStates id id id mDM0 [0] [(0, 0, 1)] [(0, 0, 0)] 1).getD 0 mDM)
    (by decide)

theorem getD_range (n i : ℕ) (h : i < n) : (List.range n).getD i 0 = i := by
  rw [List.getD_eq_getElem?_getD, List.getElem?_range h]
  rfl

theorem shuffled_length (σ : List ℕ) (xs : List Triple) :
    (Pipeline.shuffled σ xs).length = σ.length := by
  simp [Pipeline.shuffled]

/-- C9: The training instances are shuffled exactly once, before the first
epoch: every epoch of the schedule visits the same fixed instance list
(no reshuffling between or within epochs), and the positive and negative
triples are permuted by the same index permutation, so the pair visited at
step `k` is `(pos[σ k], neg[σ k])` — positives and negatives stay
aligned. -/
theorem training_shuffle_once_fixed_order :
    ∀ (σ : List ℕ) (pos neg : List Triple) (num_epochs e k : ℕ),
      σ.Perm (List.range pos.length) →
      e < num_epochs → k < σ.length →
      ((Pipeline.schedule σ pos neg num_epochs).getD e []
          = Pipeline.epochInstances σ pos neg
      ∧ (Pipeline.epochInstances σ pos neg).getD k ((0, 0, 0), (0, 0, 0))
          = (pos.getD (σ.getD k 0) (0, 0, 0),
             neg.getD (σ.getD k 0) (0, 0, 0))) := by
  intro σ pos neg num_epochs e k hperm he hk
  constructor
  · unfold Pipeline.schedule
    exact getD_map_of_lt _ (List.range num_epochs) e 0 [] (by simpa using he)
  · unfold Pipeline.epochInstances
    have hlen : k < (List.range (Pipeline.shuffled σ pos).length).length := by
      simpa [shuffled_length] using hk
    rw [getD_map_of_lt _ _ k 0 _ hlen]
    rw [getD_range _ k (by simpa [shuffled_length] using hk)]
    unfold Pipeline.shuffled
    rw [getD_map_of_lt _ σ k 0 _ hk, getD_map_of_lt _ σ k 0 _ hk]

/-- Witness for C9 on a concrete two-instance, two-epoch run with the
shuffle `σ = [1, 0]`. -/
theorem training_shuffle_once_fixed_order_witness :
    ((Pipeline.schedule [1, 0] [(0, 0, 1), (1, 0, 0)] [(0, 0, 2), (1, 0, 2)]
          2).getD 1 []
        = Pipeline.epochInstances [1, 0] [(0, 0, 1), (1, 0, 0)]
            [(0, 0, 2), (1, 0, 2)]
    ∧ (Pipeline.epochInstances [1, 0] [(0, 0, 1), (1, 0, 0)]
          [(0, 0, 2), (1, 0, 2)]).getD 0 ((0, 0, 0), (0, 0, 0))
        = ([(0, 0, 1), (1, 0, 0)].getD ([1, 0].getD 0 0) (0, 0, 0),
           [(0, 0, 2), (1, 0, 2)].getD ([1, 0].getD 0 0) (0, 0, 0))) :=
  training_shuffle_once_fixed_order [1, 0] [(0, 0, 1), (1, 0, 0)]
    [(0, 0, 2), (1, 0, 2)] 2 1 0 (by decide) (by decide) (by decide)

/-- Entry `k` of the product of a flat length-`d*d` relation row, viewed as
a `d × d` matrix, with a length-`d` vector: the row-major indexed sum. -/
theorem matVec_chunk_entry (d k : ℕ) (flat v : Vec) (hk : k < d)
    (hflat : flat.length = d * d) (hv : v.length = d) :
    (matVec (chunkList d flat) v).getD k 0
      = ∑ j ∈ Finset.range d, flat.getD (k * d + j) 0 * v.getD j 0 := by
  have hd : 0 < d := Nat.pos_of_ne_zero (by omega)
  have hchunklen : (chunkList d flat).length = d :=
    chunkList_length_mul d hd d flat hflat
  have hkd : k * d + d ≤ d * d := by nlinarith
  unfold matVec
  rw [getD_map_of_lt _ _ k [] 0 (by rw [hchunklen]; exact hk)]
  rw [chunkList_getD d hd k flat (by omega)]
  have hu : ((flat.drop (k * d)).take d).length = d := by
    rw [List.length_take, List.length_drop, hflat]
    omega
  rw [dotList_eq_sum d _ v hu hv]
  refine Finset.sum_congr rfl ?_
  intro j hj
  rw [getD_take_drop flat (k * d) d j (Finset.mem_range.mp hj)]

/-- C6 (amended): on an OWA batch of `n` triples, DistMult's `forward_owa`
returns a tensor of shape `(n, 1)` — one scalar score per input triple,
as a column, not a rank-1 tensor of shape `(n)` — whose row `i` holds the
sum over the embedding dimension of the elementwise product
`h ⊙ r ⊙ t` of the (constraint-applied) head, relation and tail
embeddings. -/
theorem distmult_forward_owa_rows :
    ∀ (nrm : Mat → Mat) (m : DistMult) (batch : List Triple) (i h r t : ℕ),
      i < batch.length → batch.getD i (0, 0, 0) = (h, r, t) →
      (embLookup (DistMult.entityTableAfter nrm m) h).length = m.embedding_dim →
      (embLookup (DistMult.relationTableAfter nrm m) r).length = m.embedding_dim →
      (embLookup (DistMult.entityTableAfter nrm m) t).length = m.embedding_dim →
      ((DistMult.forward_owa nrm m batch).2.getD i []
          = [dotIdx m.embedding_dim
              (embLookup (DistMult.entityTableAfter nrm m) h)
              (embLookup (DistMult.relationTableAfter nrm m) r)
              (embLookup (DistMult.entityTableAfter nrm m) t)]
      ∧ (DistMult.forward_owa nrm m batch).2.length = batch.length
      ∧ ∀ row ∈ (DistMult.forward_owa nrm m batch).2, row.length = 1) := by
  intro nrm m batch i h r t hi hb hh hr ht
  have hsnd : (DistMult.forward_owa nrm m batch).2
      = batch.map (fun b =>
          [DistMult.interaction_function
            (embLookup (DistMult.entityTableAfter nrm m) b.1)
            (embLookup (DistMult.relationTableAfter nrm m) b.2.1)
            (embLookup (DistMult.entityTableAfter nrm m) b.2.2)]) := rfl
  refine ⟨?_, ?_, ?_⟩
  · rw [hsnd, getD_map_of_lt _ batch i (0, 0, 0) [] hi, hb]
    simp only [List.cons.injEq, and_true]
    exact dotIdx_of_interaction m.embedding_dim _ _ _ hh hr ht
  · rw [hsnd, List.length_map]
  · rw [hsnd]
    intro row hrow
    rcases List.mem_map.mp hrow with ⟨b, _, hbeq⟩
    rw [← hbeq]
    rfl

/-- Counterexample to C6 as stated: on a concrete one-triple batch the
returned tensor has torch shape `(1, 1)`, not shape `(1)` (the batch
size). -/
theorem distmult_forward_owa_shape_cex :
    shape2d ((DistMult.forward_owa id mDM [(0, 0, 1)]).2) ≠ [1] := by
  decide

/-- Witness for C6 (amended) on a concrete one-triple batch. -/
theorem distmult_forward_owa_rows_witness :
    ((DistMult.forward_owa id mDM [(0, 0, 1)]).2.getD 0 []
        = [dotIdx mDM.embedding_dim
            (embLookup (DistMult.entityTableAfter id mDM) 0)
            (embLookup (DistMult.relationTableAfter id mDM) 0)
            (embLookup (DistMult.entityTableAfter id mDM) 1)]
    ∧ (DistMult.forward_owa id mDM [(0, 0, 1)]).2.length
        = [((0 : ℕ), (0 : ℕ), (1 : ℕ))].length
    ∧ ∀ row ∈ (DistMult.forward_owa id mDM [(0, 0, 1)]).2, row.length = 1) :=
  distmult_forward_owa_rows id mDM [(0, 0, 1)] 0 0 0 1 (by decide)
    (by decide) (by decide) (by decide) (by decide)

/-- C1: For both models, the single-triple and all-entities scoring modes
agree: for every batch row `(h, r)` of a `forward_cwa` call, the entry at
the column with index `t` equals the score `forward_owa` computes for the
single triple `(h, r, t)` from the same model state. -/
theorem scoring_modes_consistent :
    (∀ (nrm : Mat → Mat) (m : DistMult) (bc : List (ℕ × ℕ)) (i h r t : ℕ),
      i < bc.length → bc.getD i (0, 0) = (h, r) →
      t < (DistMult.entityTableAfter nrm m).length →
      ((DistMult.forward_cwa nrm m bc).2.getD i []).getD t 0
        = ((DistMult.forward_owa nrm m [(h, r, t)]).2.getD 0 []).getD 0 0)
    ∧ (∀ (nrm : Mat → Mat) (normF : Vec → ℚ) (s : StructuredEmbedding)
        (bc : List (ℕ × ℕ)) (i h r t : ℕ),
      i < bc.length → bc.getD i (0, 0) = (h, r) →
      t < (StructuredEmbedding.entityTableAfter nrm s).length →
      ((StructuredEmbedding.forward_cwa nrm normF s bc).2.getD i []).getD t 0
        = ((StructuredEmbedding.forward_owa nrm normF s [(h, r, t)]).2.getD
            0 []).getD 0 0) := by
  constructor
  · intro nrm m bc i h r t hi hb ht
    have hcwa : (DistMult.forward_cwa nrm m bc).2
        = bc.map (fun b =>
            (DistMult.entityTableAfter nrm m).map (fun w =>
              DistMult.interaction_function
                (embLookup (DistMult.entityTableAfter nrm m) b.1)
                (embLookup (DistMult.relationTableAfter nrm m) b.2) w)) := rfl
    rw [hcwa, getD_map_of_lt _ bc i (0, 0) [] hi, hb,
      getD_map_of_lt _ _ t [] 0 ht]
    rfl
  · intro nrm normF s bc i h r t hi hb ht
    have hcwa : (StructuredEmbedding.forward_cwa nrm normF s bc).2
        = bc.map (fun b =>
            (StructuredEmbedding.entityTableAfter nrm s).map (fun w =>
              -(normF (vecSub
                (StructuredEmbedding.project_entities
                  (chunkList s.embedding_dim
                    (embLookup (StructuredEmbedding.leftTableAfter nrm s) b.2))
                  (embLookup (StructuredEmbedding.entityTableAfter nrm s) b.1))
                (StructuredEmbedding.project_entities
                  (chunkList s.embedding_dim
                    (embLookup (StructuredEmbedding.rightTableAfter nrm s) b.2))
                  w))))) := rfl
    rw [hcwa, getD_map_of_lt _ bc i (0, 0) [] hi, hb,
      getD_map_of_lt _ _ t [] 0 ht]
    rfl

/-- Witness for C1 on concrete populated `DistMult` and
`StructuredEmbedding` instances, with the default L1 norm. -/
theorem scoring_modes_consistent_witness :
    ((DistMult.forward_cwa id mDM [(0, 0)]).2.getD 0 []).getD 1 0
        = ((DistMult.forward_owa id mDM [(0, 0, 1)]).2.getD 0 []).getD 0 0
    ∧ ((StructuredEmbedding.forward_cwa id normP1 sSE [(0, 0)]).2.getD
          0 []).getD 1 0
        = ((StructuredEmbedding.forward_owa id normP1 sSE
            [(0, 0, 1)]).2.getD 0 []).getD 0 0 :=
  ⟨scoring_modes_consistent.1 id mDM [(0, 0)] 0 0 0 1 (by decide)
      (by decide) (by decide),
   scoring_modes_consistent.2 id normP1 sSE [(0, 0)] 0 0 0 1 (by decide)
      (by decide) (by decide)⟩

/-- C7: On every OWA batch row `(h, r, t)`, Structured Embedding's
`forward_owa` returns the negative norm (the configured
`scoring_fct_norm`-order norm, abstracted as `normF`) of the difference
`w` between the head projected by the relation's left matrix and the tail
projected by the relation's right matrix: `w` has dimension `E` and its
`k`-th component is the matrix-vector product row
`Σ_j L[k,j]·h[j] − Σ_j R[k,j]·t[j]`, where `L` and `R` are the relation's
flat stored rows viewed as `E × E` matrices. -/
theorem se_forward_owa_score :
    ∀ (nrm : Mat → Mat) (normF : Vec → ℚ) (s : StructuredEmbedding)
      (batch : List Triple) (i h r t : ℕ),
      i < batch.length → batch.getD i (0, 0, 0) = (h, r, t) →
      (embLookup (StructuredEmbedding.leftTableAfter nrm s) r).length
        = s.embedding_dim * s.embedding_dim →
      (embLookup (StructuredEmbedding.rightTableAfter nrm s) r).length
        = s.embedding_dim * s.embedding_dim →
      (embLookup (StructuredEmbedding.entityTableAfter nrm s) h).length
        = s.embedding_dim →
      (embLookup (StructuredEmbedding.entityTableAfter nrm s) t).length
        = s.embedding_dim →
      ∃ w : Vec,
        (StructuredEmbedding.forward_owa nrm normF s batch).2.getD i []
            = [-(normF w)]
        ∧ w.length = s.embedding_dim
        ∧ ∀ k : ℕ, k < s.embedding_dim →
            w.getD k 0
              = (∑ j ∈ Finset.range s.embedding_dim,
                  (embLookup (StructuredEmbedding.leftTableAfter nrm s)
                      r).getD (k * s.embedding_dim + j) 0
                    * (embLookup (StructuredEmbedding.entityTableAfter nrm s)
                        h).getD j 0)
                - (∑ j ∈ Finset.range s.embedding_dim,
                  (embLookup (StructuredEmbedding.rightTableAfter nrm s)
                      r).getD (k * s.embedding_dim + j) 0
                    * (embLookup (StructuredEmbedding.entityTableAfter nrm s)
                        t).getD j 0) := by
  intro nrm normF s batch i h r t hi hb hL hR hh ht
  have howa : (StructuredEmbedding.forward_owa nrm normF s batch).2
      = batch.map (fun b =>
          [-(normF (vecSub
            (StructuredEmbedding.project_entities
              (chunkList s.embedding_dim
                (embLookup (StructuredEmbedding.leftTableAfter nrm s) b.2.1))
              (embLookup (StructuredEmbedding.entityTableAfter nrm s) b.1))
            (StructuredEmbedding.project_entities
              (chunkList s.embedding_dim
                (embLookup (StructuredEmbedding.rightTableAfter nrm s) b.2.1))
              (embLookup (StructuredEmbedding.entityTableAfter nrm s)
                b.2.2))))]) := rfl
  refine ⟨vecSub
    (StructuredEmbedding.project_entities
      (chunkList s.embedding_dim
        (embLookup (StructuredEmbedding.leftTableAfter nrm s) r))
      (embLookup (StructuredEmbedding.entityTableAfter nrm s) h))
    (StructuredEmbedding.project_entities
      (chunkList s.embedding_dim
        (embLookup (StructuredEmbedding.rightTableAfter nrm s) r))
      (embLookup (StructuredEmbedding.entityTableAfter nrm s) t)),
    ?_, ?_, ?_⟩
  · rw [howa, getD_map_of_lt _ batch i (0, 0, 0) [] hi, hb]
  · rcases Nat.eq_zero_or_pos s.embedding_dim with hd | hd
    · have hLnil : embLookup (StructuredEmbedding.leftTableAfter nrm s) r
          = [] := by
        rw [← List.length_eq_zero, hL, hd]
      have hRnil : embLookup (StructuredEmbedding.rightTableAfter nrm s) r
          = [] := by
        rw [← List.length_eq_zero, hR, hd]
      simp [vecSub, StructuredEmbedding.project_entities, matVec, hLnil,
        hRnil, chunkList, hd]
    · have h1 : (chunkList s.embedding_dim
          (embLookup (StructuredEmbedding.leftTableAfter nrm s) r)).length
            = s.embedding_dim :=
        chunkList_length_mul s.embedding_dim hd s.embedding_dim _ hL
      have h2 : (chunkList s.embedding_dim
          (embLookup (StructuredEmbedding.rightTableAfter nrm s) r)).length
            = s.embedding_dim :=
        chunkList_length_mul s.embedding_dim hd s.embedding_dim _ hR
      simp [vecSub, StructuredEmbedding.project_entities, matVec, h1, h2]
  · intro k hk
    unfold StructuredEmbedding.project_entities vecSub
    rw [getD_zipWith_of_lt _ _ _ k 0 0 0 ?_ ?_]
    · rw [matVec_chunk_entry s.embedding_dim k _ _ hk hL hh,
        matVec_chunk_entry s.embedding_dim k _ _ hk hR ht]
    · unfold matVec
      rw [List.length_map,
        chunkList_length_mul s.embedding_dim (by omega) s.embedding_dim _ hL]
      exact hk
    · unfold matVec
      rw [List.length_map,
        chunkList_length_mul s.embedding_dim (by omega) s.embedding_dim _ hR]
      exact hk

/-- Witness for C7 on a concrete one-triple batch with the default L1
norm. -/
theorem se_forward_owa_score_witness :
    ∃ w : Vec,
      (StructuredEmbedding.forward_owa id normP1 sSE [(0, 0, 1)]).2.getD 0 []
          = [-(normP1 w)]
      ∧ w.length = sSE.embedding_dim
      ∧ ∀ k : ℕ, k < sSE.embedding_dim →
          w.getD k 0
            = (∑ j ∈ Finset.range sSE.embedding_dim,
                (embLookup (StructuredEmbedding.leftTableAfter id sSE)
                    0).getD (k * sSE.embedding_dim + j) 0
                  * (embLookup (StructuredEmbedding.entityTableAfter id sSE)
                      0).getD j 0)
              - (∑ j ∈ Finset.range sSE.embedding_dim,
                (embLookup (StructuredEmbedding.rightTableAfter id sSE)
                    0).getD (k * sSE.embedding_dim + j) 0
                  * (embLookup (StructuredEmbedding.entityTableAfter id sSE)
                      1).getD j 0) :=
  se_forward_owa_score id normP1 sSE [(0, 0, 1)] 0 0 0 1 (by decide)
    (by decide) (by decide) (by decide) (by decide) (by decide)

end PoemSpec
